import Mathlib

/-!
Verification of the seclai CLI command-dispatch layer.

This file gives a shallow embedding, in Lean, of the parts of the seclai
command-line client that the specification talks about: the JSON
success printer and its serialization format, the JSON request-body
resolution, the error normalizer, the client-construction options, the
option objects handed to the remote client, and the exit-code resolution
of `runCli`.  Each definition is translated from the TypeScript source
(`src/cli.ts`); definitions that model behavior of an external collaborator
(the argument-parsing library, the JavaScript `Number` and `JSON`
builtins) say so in their doc comments.  The theorems at the end of the
file settle the specification's claims against these definitions.
-/

set_option maxHeartbeats 1600000

/-- JSON values, the domain of `JSON.stringify`/`JSON.parse` as used by the
CLI.  Strings are lists of Unicode scalar values.  Numbers are modelled as
integers: the CLI never constructs non-integer JSON numbers itself, and the
claims settled here do not depend on the binary floating-point rounding of
the JavaScript number type, which is not modelled. -/
inductive Json where
  | null
  | bool (b : Bool)
  | num (n : Int)
  | str (s : List Char)
  | arr (elems : List Json)
  | obj (fields : List (List Char × Json))

/-- Character used for a decimal digit value. -/
def digitChar (d : Nat) : Char := Char.ofNat (48 + d)

/-- Little-endian decimal digit values of a natural number; the fuel is
structural and `n + 1` is always enough. -/
def leDigits : Nat → Nat → List Nat
  | 0, _ => []
  | fuel + 1, n => if n = 0 then [] else n % 10 :: leDigits fuel (n / 10)

/-- Decimal digit characters of a natural number, most significant first. -/
def natChars (n : Nat) : List Char :=
  if n = 0 then ['0'] else ((leDigits (n + 1) n).map digitChar).reverse

/-- Decimal rendering of an integer, as `JSON.stringify` prints an
integer-valued number. -/
def intChars (n : Int) : List Char :=
  if n < 0 then '-' :: natChars n.natAbs else natChars n.natAbs

/-- Lower-case hexadecimal digit character. -/
def hexChar (d : Nat) : Char :=
  if d < 10 then digitChar d else Char.ofNat (97 + (d - 10))

/-- Escape one character of a JSON string the way `JSON.stringify` does:
quote and backslash get a backslash escape, the named control characters get
their short escapes, the remaining control characters get a `\u00..` escape,
and everything else is emitted verbatim. -/
def escChar (c : Char) : List Char :=
  if c = '"' then ['\\', '"']
  else if c = '\\' then ['\\', '\\']
  else if c = Char.ofNat 8 then ['\\', 'b']
  else if c = Char.ofNat 12 then ['\\', 'f']
  else if c = '\n' then ['\\', 'n']
  else if c = '\r' then ['\\', 'r']
  else if c = '\t' then ['\\', 't']
  else if c.toNat < 32 then ['\\', 'u', '0', '0', hexChar (c.toNat / 16), hexChar (c.toNat % 16)]
  else [c]

/-- Escaped body of a JSON string literal. -/
def escBody (s : List Char) : List Char := (s.map escChar).flatten

/-- A JSON string literal: quote, escaped body, quote. -/
def quoteChars (s : List Char) : List Char := '"' :: (escBody s ++ ['"'])

/-- Indentation: `n` spaces. -/
def sp (n : Nat) : List Char := List.replicate n ' '

mutual

/-- Serialization of a JSON value exactly as `JSON.stringify(value, null, 2)`
renders it when the enclosing indentation is `ind` spaces: scalars are
rendered inline, empty arrays and objects are rendered as two brackets, and
non-empty arrays and objects put each item on its own line indented by
`ind + 2` spaces with the closing bracket indented by `ind` spaces. -/
def serJson (ind : Nat) : Json → List Char
  | Json.null => ['n', 'u', 'l', 'l']
  | Json.bool true => ['t', 'r', 'u', 'e']
  | Json.bool false => ['f', 'a', 'l', 's', 'e']
  | Json.num n => intChars n
  | Json.str s => quoteChars s
  | Json.arr [] => ['[', ']']
  | Json.arr (x :: xs) => '[' :: '\n' :: (serItems ind (x :: xs) ++ '\n' :: (sp ind ++ [']']))
  | Json.obj [] => ['{', '}']
  | Json.obj (f :: fs) => '{' :: '\n' :: (serFields ind (f :: fs) ++ '\n' :: (sp ind ++ ['}']))

/-- Comma-and-newline separated array items, each indented by `ind + 2`. -/
def serItems (ind : Nat) : List Json → List Char
  | [] => []
  | [x] => sp (ind + 2) ++ serJson (ind + 2) x
  | x :: y :: ys => sp (ind + 2) ++ serJson (ind + 2) x ++ ',' :: '\n' :: serItems ind (y :: ys)

/-- Comma-and-newline separated object fields, each `"key": value` indented
by `ind + 2`. -/
def serFields (ind : Nat) : List (List Char × Json) → List Char
  | [] => []
  | [(k, v)] => sp (ind + 2) ++ (quoteChars k ++ ':' :: ' ' :: serJson (ind + 2) v)
  | (k, v) :: f :: fs =>
      sp (ind + 2) ++ (quoteChars k ++ ':' :: ' ' :: serJson (ind + 2) v)
        ++ ',' :: '\n' :: serFields ind (f :: fs)

end

/-- The pretty-printed JSON text of a value: `JSON.stringify(value, null, 2)`. -/
def jsonStringify (v : Json) : String := String.mk (serJson 0 v)

/-- JSON whitespace, as skipped by `JSON.parse`. -/
def isWsCh (c : Char) : Bool := c = ' ' || c = '\t' || c = '\n' || c = '\r'

/-- Drop leading JSON whitespace. -/
def skipWs (cs : List Char) : List Char := cs.dropWhile isWsCh

/-- Decimal digit test. -/
def isDigitCh (c : Char) : Bool := 48 ≤ c.toNat && c.toNat ≤ 57

/-- Value of a decimal digit character. -/
def digitVal (c : Char) : Nat := c.toNat - 48

/-- Split the longest prefix of decimal digits off a character list,
returning the digit values and the remainder. -/
def takeDigits : List Char → List Nat × List Char
  | [] => ([], [])
  | c :: cs =>
      if isDigitCh c then
        ((takeDigits cs).1.cons (digitVal c), (takeDigits cs).2)
      else ([], c :: cs)

/-- Value of a big-endian list of digit values. -/
def digitsVal (ds : List Nat) : Nat := ds.foldl (fun a d => a * 10 + d) 0

/-- Parse a natural number written in decimal.  A following `.`, `e` or `E`
is rejected: the model of `JSON.parse` restricts JSON numbers to integers,
matching the integer-valued number model of `Json`. -/
def pNatNum (cs : List Char) : Option (Nat × List Char) :=
  let p := takeDigits cs
  if p.1.isEmpty then none
  else if p.2.head? = some '.' || p.2.head? = some 'e' || p.2.head? = some 'E' then none
  else some (digitsVal p.1, p.2)

/-- Value of a hexadecimal digit character, upper or lower case. -/
def hexVal? (c : Char) : Option Nat :=
  if 48 ≤ c.toNat && c.toNat ≤ 57 then some (c.toNat - 48)
  else if 97 ≤ c.toNat && c.toNat ≤ 102 then some (c.toNat - 87)
  else if 65 ≤ c.toNat && c.toNat ≤ 70 then some (c.toNat - 55)
  else none

/-- Resolution of a single-character JSON string escape. -/
def unescapeChar : Char → Option Char
  | '"' => some '"'
  | '\\' => some '\\'
  | '/' => some '/'
  | 'b' => some (Char.ofNat 8)
  | 'f' => some (Char.ofNat 12)
  | 'n' => some '\n'
  | 'r' => some '\r'
  | 't' => some '\t'
  | _ => none

/-- Parse the body of a JSON string literal after its opening quote, up to
and including the closing quote, resolving escapes. -/
def pStringBody : List Char → Option (List Char × List Char)
  | [] => none
  | c :: rest =>
      if c = '"' then some ([], rest)
      else if c = '\\' then
        match rest with
        | 'u' :: a :: b :: x :: d :: rest2 =>
            match hexVal? a, hexVal? b, hexVal? x, hexVal? d with
            | some va, some vb, some vx, some vd =>
                let n := ((va * 16 + vb) * 16 + vx) * 16 + vd
                if n.isValidChar then
                  (pStringBody rest2).map (fun p => (Char.ofNat n :: p.1, p.2))
                else none
            | _, _, _, _ => none
        | e :: rest2 =>
            match unescapeChar e with
            | some c2 => (pStringBody rest2).map (fun p => (c2 :: p.1, p.2))
            | none => none
        | [] => none
      else (pStringBody rest).map (fun p => (c :: p.1, p.2))

mutual

/-- Fueled recursive-descent JSON value parser, the model of `JSON.parse`
(with JSON numbers restricted to integers, see `pNatNum`).  The fuel only
bounds the nesting of values; one unit is consumed per value and per
aggregate item, so any fuel beyond the node count of the input is enough. -/
def pVal : Nat → List Char → Option (Json × List Char)
  | 0, _ => none
  | fuel + 1, cs0 =>
      match skipWs cs0 with
      | [] => none
      | c :: cs =>
          if c = 'n' then
            if cs.take 3 = ['u', 'l', 'l'] then some (Json.null, cs.drop 3) else none
          else if c = 't' then
            if cs.take 3 = ['r', 'u', 'e'] then some (Json.bool true, cs.drop 3) else none
          else if c = 'f' then
            if cs.take 4 = ['a', 'l', 's', 'e'] then some (Json.bool false, cs.drop 4) else none
          else if c = '"' then
            (pStringBody cs).map (fun p => (Json.str p.1, p.2))
          else if c = '[' then
            if (skipWs cs).head? = some ']' then some (Json.arr [], (skipWs cs).tail)
            else (pElems fuel cs).map (fun p => (Json.arr p.1, p.2))
          else if c = '{' then
            if (skipWs cs).head? = some '}' then some (Json.obj [], (skipWs cs).tail)
            else (pFields fuel cs).map (fun p => (Json.obj p.1, p.2))
          else if c = '-' then
            (pNatNum cs).map (fun p => (Json.num (-(p.1 : Int)), p.2))
          else
            (pNatNum (c :: cs)).map (fun p => (Json.num (p.1 : Int), p.2))

/-- Parse the items of a non-empty JSON array after the opening bracket, up
to and including the closing bracket. -/
def pElems : Nat → List Char → Option (List Json × List Char)
  | 0, _ => none
  | fuel + 1, cs =>
      match pVal fuel cs with
      | none => none
      | some (x, r) =>
          match skipWs r with
          | [] => none
          | c :: r2 =>
              if c = ',' then (pElems fuel r2).map (fun p => (x :: p.1, p.2))
              else if c = ']' then some ([x], r2)
              else none

/-- Parse the fields of a non-empty JSON object after the opening brace, up
to and including the closing brace. -/
def pFields : Nat → List Char → Option (List (List Char × Json) × List Char)
  | 0, _ => none
  | fuel + 1, cs =>
      match skipWs cs with
      | [] => none
      | c :: r =>
          if c = '"' then
            match pStringBody r with
            | none => none
            | some (k, r2) =>
                match skipWs r2 with
                | [] => none
                | c2 :: r3 =>
                    if c2 = ':' then
                      match pVal fuel r3 with
                      | none => none
                      | some (v, r4) =>
                          match skipWs r4 with
                          | [] => none
                          | c3 :: r5 =>
                              if c3 = ',' then
                                (pFields fuel r5).map (fun p => ((k, v) :: p.1, p.2))
                              else if c3 = '}' then some ([(k, v)], r5)
                              else none
                    else none
          else none

end

/-- The model of `JSON.parse`: parse one value, then require only whitespace
to remain.  Returns `none` where `JSON.parse` would throw a syntax error. -/
def jsonParse (s : String) : Option Json :=
  match pVal (s.data.length + 1) s.data with
  | some (v, rest) => if skipWs rest = [] then some v else none
  | none => none

mutual

/-- Fuel sufficient for `pVal` to parse the serialization of a value: one
unit per value and per aggregate item. -/
def jfuel : Json → Nat
  | Json.null => 1
  | Json.bool _ => 1
  | Json.num _ => 1
  | Json.str _ => 1
  | Json.arr xs => 1 + jfuelList xs
  | Json.obj fs => 1 + jfuelFields fs

/-- Fuel for the items of an array. -/
def jfuelList : List Json → Nat
  | [] => 0
  | x :: xs => 1 + jfuel x + jfuelList xs

/-- Fuel for the fields of an object. -/
def jfuelFields : List (List Char × Json) → Nat
  | [] => 0
  | (_, v) :: fs => 1 + jfuel v + jfuelFields fs

end

/-- Value of a little-endian list of digit values. -/
def ofLE : List Nat → Nat
  | [] => 0
  | d :: ds => d + 10 * ofLE ds

/-- The tails that can follow a serialized value inside a pretty-printed
document: nothing, a comma, or a newline.  This is what guarantees that the
digit scan of a serialized number stops exactly at the value's end. -/
def Stop (rest : List Char) : Prop :=
  rest = [] ∨ (∃ t, rest = ',' :: t) ∨ (∃ t, rest = '\n' :: t)

/-- JavaScript numbers as far as this CLI observes them: not-a-number, the
two infinities, or a finite value.  Finite values are carried as exact
rationals; the rounding of a finite value to binary floating point is not
modelled, and no claim settled here depends on it. -/
inductive JSNum where
  | nan
  | inf (neg : Bool)
  | val (q : ℚ)
deriving DecidableEq

/-- Whitespace trimmed by the JavaScript `Number` conversion (the common
members of the ECMAScript WhiteSpace and LineTerminator classes). -/
def jsWsCh (c : Char) : Bool :=
  c = ' ' || c = '\t' || c = '\n' || c = '\r' || c = Char.ofNat 11 || c = Char.ofNat 12
    || c = Char.ofNat 160 || c = Char.ofNat 65279

/-- Trim leading and trailing JavaScript whitespace. -/
def trimJs (cs : List Char) : List Char :=
  ((cs.dropWhile jsWsCh).reverse.dropWhile jsWsCh).reverse

/-- All characters are decimal digits. -/
def allDigits (cs : List Char) : Bool := cs.all isDigitCh

/-- Decimal value of an all-digit character list. -/
def digitsValCh (cs : List Char) : Nat := digitsVal (cs.map digitVal)

/-- Split a character list at the first character satisfying the test,
returning the part before it and, when found, the part after it. -/
def splitAtChar (target : Char → Bool) : List Char → List Char × Option (List Char)
  | [] => ([], none)
  | c :: cs =>
      if target c then ([], some cs)
      else ((splitAtChar target cs).1.cons c, (splitAtChar target cs).2)

/-- Value of an unsigned ECMAScript string decimal literal
(`digits [. digits] [e sign digits]`, or `. digits [e sign digits]`), or
`none` when the text is not such a literal. -/
def strDecimal (cs : List Char) : Option ℚ :=
  let mant := (splitAtChar (fun c => c = 'e' || c = 'E') cs).1
  let expPart := (splitAtChar (fun c => c = 'e' || c = 'E') cs).2
  let expVal : Option Int :=
    match expPart with
    | none => some 0
    | some ('+' :: ds) => if ds ≠ [] && allDigits ds then some (digitsValCh ds : Int) else none
    | some ('-' :: ds) => if ds ≠ [] && allDigits ds then some (-(digitsValCh ds : Int)) else none
    | some ds => if ds ≠ [] && allDigits ds then some (digitsValCh ds : Int) else none
  match expVal with
  | none => none
  | some e =>
      let ip := (splitAtChar (fun c => c = '.') mant).1
      let fp := (splitAtChar (fun c => c = '.') mant).2
      match fp with
      | none =>
          if ip ≠ [] && allDigits ip then some ((digitsValCh ip : ℚ) * (10 : ℚ) ^ e) else none
      | some fs =>
          if ip.isEmpty && fs.isEmpty then none
          else if allDigits ip && allDigits fs then
            some (((digitsValCh ip : ℚ) + (digitsValCh fs : ℚ) / (10 : ℚ) ^ fs.length)
              * (10 : ℚ) ^ e)
          else none

/-- Value of a digit in the given radix, for the non-decimal integer
literals accepted by the `Number` conversion. -/
def radixVal? (radix : Nat) (digit? : Char → Option Nat) (cs : List Char) : Option Nat :=
  if cs.isEmpty then none
  else if cs.all (fun c => (digit? c).isSome) then
    some (cs.foldl (fun a c => a * radix + (digit? c).getD 0) 0)
  else none

/-- Octal digit value. -/
def octVal? (c : Char) : Option Nat :=
  if 48 ≤ c.toNat && c.toNat ≤ 55 then some (c.toNat - 48) else none

/-- Binary digit value. -/
def binVal? (c : Char) : Option Nat :=
  if c = '0' then some 0 else if c = '1' then some 1 else none

/-- Modelled from the ECMAScript `ToNumber` conversion on strings, which is
what the option converter `(v) => Number(v)` in the command declarations
applies: trimmed empty input is `0`; an optionally signed decimal literal or
`Infinity` takes its value; an unsigned `0x`/`0o`/`0b` integer literal takes
its value; every other string converts to `NaN`.  The conversion never
throws. -/
def jsToNumber (s : String) : JSNum :=
  match trimJs s.data with
  | [] => JSNum.val 0
  | '0' :: 'x' :: ds =>
      match radixVal? 16 hexVal? ds with | some n => JSNum.val n | none => JSNum.nan
  | '0' :: 'X' :: ds =>
      match radixVal? 16 hexVal? ds with | some n => JSNum.val n | none => JSNum.nan
  | '0' :: 'o' :: ds =>
      match radixVal? 8 octVal? ds with | some n => JSNum.val n | none => JSNum.nan
  | '0' :: 'O' :: ds =>
      match radixVal? 8 octVal? ds with | some n => JSNum.val n | none => JSNum.nan
  | '0' :: 'b' :: ds =>
      match radixVal? 2 binVal? ds with | some n => JSNum.val n | none => JSNum.nan
  | '0' :: 'B' :: ds =>
      match radixVal? 2 binVal? ds with | some n => JSNum.val n | none => JSNum.nan
  | cs =>
      let signed : Bool × List Char :=
        match cs with
        | '+' :: t => (false, t)
        | '-' :: t => (true, t)
        | t => (false, t)
      if signed.2 = ['I', 'n', 'f', 'i', 'n', 'i', 't', 'y'] then JSNum.inf signed.1
      else
        match strDecimal signed.2 with
        | some q => JSNum.val (if signed.1 then -q else q)
        | none => JSNum.nan

/-- JavaScript values as far as the option objects built by the CLI are
concerned: `undefined`, `null`, booleans, numbers, strings, byte buffers
(for file uploads) and objects given as ordered key/value lists. -/
inductive JsValue where
  | undef
  | nullv
  | bool (b : Bool)
  | num (n : JSNum)
  | str (s : String)
  | bytes (data : List Nat)
  | obj (fields : List (String × JsValue))

/-- JavaScript truthiness of the values above. -/
def jsTruthy : JsValue → Bool
  | JsValue.undef => false
  | JsValue.nullv => false
  | JsValue.bool b => b
  | JsValue.num JSNum.nan => false
  | JsValue.num (JSNum.inf _) => true
  | JsValue.num (JSNum.val q) => decide (q ≠ 0)
  | JsValue.str s => decide (s ≠ "")
  | JsValue.bytes _ => true
  | JsValue.obj _ => true

/-- JavaScript property read on a value: a present key of an object yields
its value, anything else yields `undefined`. -/
def getProp (v : JsValue) (key : String) : JsValue :=
  match v with
  | JsValue.obj fields => (List.lookup key fields).getD JsValue.undef
  | _ => JsValue.undef

/-- An optional parsed numeric option as it appears in an object literal:
an omitted option is `undefined`. -/
def ofOptNum : Option JSNum → JsValue
  | none => JsValue.undef
  | some n => JsValue.num n

/-- An optional parsed string option as it appears in an object literal:
an omitted option is `undefined`. -/
def ofOptStr : Option String → JsValue
  | none => JsValue.undef
  | some s => JsValue.str s

/-- One invocation of a Remote Client Interface operation, with the argument
values the CLI passes.  `getAgentRun` carries its arguments as raw
JavaScript values because the `agents runs get` action passes a non-string
value there (see `agentsRunsGetAction`). -/
inductive ClientCall where
  | listSources (opts : List (String × JsValue))
  | uploadFileToSource (sourceConnectionId : String) (opts : List (String × JsValue))
  | runAgent (agentId : String) (body : Json)
  | runStreamingAgentAndWait (agentId : String) (body : Json)
      (opts : Option (List (String × JsValue)))
  | listAgentRuns (agentId : String) (opts : List (String × JsValue))
  | getAgentRun (runId : JsValue) (opts : JsValue)
  | deleteAgentRun (runId : String)
  | getContentDetail (sourceConnectionContentVersion : String)
      (opts : List (String × JsValue))
  | deleteContent (sourceConnectionContentVersion : String)
  | listContentEmbeddings (sourceConnectionContentVersion : String)
      (opts : List (String × JsValue))

/-- Parsed options of `sources list`; an absent field is a flag the user did
not supply (commander leaves the key undefined). -/
structure SourcesListOpts where
  page : Option JSNum
  limit : Option JSNum
  sort : Option String
  order : Option String
  accountId : Option String

/-- The object literal the `sources list` action passes to
`client.listSources`: every key is written unconditionally, so an omitted
flag appears as a key whose value is `undefined`. -/
def listSourcesArg (o : SourcesListOpts) : List (String × JsValue) :=
  [("page", ofOptNum o.page), ("limit", ofOptNum o.limit), ("sort", ofOptStr o.sort),
    ("order", ofOptStr o.order), ("accountId", ofOptStr o.accountId)]

/-- The single client call made by the `sources list` action. -/
def sourcesListAction (o : SourcesListOpts) : ClientCall :=
  ClientCall.listSources (listSourcesArg o)

/-- Parsed options of `sources upload` (besides the required `--file`). -/
structure SourcesUploadOpts where
  title : Option String
  fileName : Option String
  mimeType : Option String

/-- The upload options object built by the `sources upload` action: it
starts from `\x7b file: bytes \x7d` and assigns each optional key only when
the corresponding option is defined. -/
def uploadFileToSourceArg (bytes : List Nat) (o : SourcesUploadOpts) :
    List (String × JsValue) :=
  [("file", JsValue.bytes bytes)]
    ++ (match o.title with | some t => [("title", JsValue.str t)] | none => [])
    ++ (match o.fileName with | some n => [("fileName", JsValue.str n)] | none => [])
    ++ (match o.mimeType with | some m => [("mimeType", JsValue.str m)] | none => [])

/-- Parsed options of `agents runs list` and `contents embeddings`. -/
structure PageLimitOpts where
  page : Option JSNum
  limit : Option JSNum

/-- The object literal passed to `client.listAgentRuns` (and, with the same
shape, to `client.listContentEmbeddings`): both keys written
unconditionally. -/
def pageLimitArg (o : PageLimitOpts) : List (String × JsValue) :=
  [("page", ofOptNum o.page), ("limit", ofOptNum o.limit)]

/-- The single client call made by the `agents runs list` action. -/
def agentRunsListAction (agentId : String) (o : PageLimitOpts) : ClientCall :=
  ClientCall.listAgentRuns agentId (pageLimitArg o)

/-- The single client call made by the `contents embeddings` action. -/
def contentsEmbeddingsAction (sourceConnectionContentVersion : String) (o : PageLimitOpts) :
    ClientCall :=
  ClientCall.listContentEmbeddings sourceConnectionContentVersion (pageLimitArg o)

/-- Parsed options of `contents get`. -/
structure ContentsGetOpts where
  start : Option JSNum
  «end» : Option JSNum

/-- The object literal the `contents get` action passes to
`client.getContentDetail`: both keys written unconditionally. -/
def getContentDetailArg (o : ContentsGetOpts) : List (String × JsValue) :=
  [("start", ofOptNum o.start), ("end", ofOptNum o.«end»)]

/-- The single client call made by the `contents get` action. -/
def contentsGetAction (sourceConnectionContentVersion : String) (o : ContentsGetOpts) :
    ClientCall :=
  ClientCall.getContentDetail sourceConnectionContentVersion (getContentDetailArg o)

/-- The positional arguments declared on the `agents runs get` leaf command
in the source: a single `<runId>` argument. -/
def agentsRunsGetDeclaredArgs : List String := ["runId"]

/-- Modelled from the argument parser's documented action-handler
convention: the handler is invoked with one value per declared positional
argument, in declaration order, followed by the parsed-options object and
then the command object itself.  `agents runs get` declares the single
positional `runId`, so a three-parameter handler binds its first parameter
to the supplied value, its second to the options object, and its third to
the command object.  Option values are not stored as properties on the
command object (the parser's default), so property reads on it yield
`undefined`; it is modelled as an object without the option keys. -/
def agentsRunsGetHandlerArgs (runIdValue : String)
    (parsedOptions : List (String × JsValue)) : JsValue × JsValue × JsValue :=
  (JsValue.str runIdValue, JsValue.obj parsedOptions, JsValue.obj [])

/-- The body of the `agents runs get` action, applied to the three handler
parameters `(agentId, runId, opts)` in source order: it calls
`client.getAgentRun(runId, opts.includeStepOutputs ? \x7b includeStepOutputs:
true \x7d : undefined)`. -/
def agentsRunsGetAction (p : JsValue × JsValue × JsValue) : ClientCall :=
  ClientCall.getAgentRun p.2.1
    (if jsTruthy (getProp p.2.2 "includeStepOutputs") then
      JsValue.obj [("includeStepOutputs", JsValue.bool true)]
    else JsValue.undef)

/-- The options object `new Seclai(...)` receives from `createClient`:
`apiKey` is assigned only when the global option is defined, and `baseUrl`
is always assigned — the value of `SECLAI_API_URL` when that variable is a
non-empty string, the production host otherwise. -/
def createClient (apiKey : Option String) (envSeclaiApiUrl : Option String) :
    List (String × JsValue) :=
  (match apiKey with | some k => [("apiKey", JsValue.str k)] | none => [])
    ++ [("baseUrl", JsValue.str
          (match envSeclaiApiUrl with
            | some u => if u.length > 0 then u else "https://api.seclai.com"
            | none => "https://api.seclai.com"))]

/-- The error taxonomy observed by `printError`, one variant per
`instanceof` branch, carrying exactly the fields each branch reads.  The
last variant is a thrown non-error value, carried as the text its string
coercion produces. -/
inductive CliError where
  | apiValidation (name message : String) (statusCode : Int) (url : String)
      (responseText : Option String) (validationError : Option Json)
  | apiStatus (name message : String) (statusCode : Int) (url : String)
      (responseText : Option String)
  | configuration (name message : String)
  | generic (name message : String)
  | nonError (display : String)

/-- The two output sinks of the runtime adapter, accumulated in write
order. -/
structure Sinks where
  out : String
  err : String

/-- Forward text verbatim to the output sink. -/
def writeOut (s : Sinks) (text : String) : Sinks := { s with out := s.out ++ text }

/-- Forward text verbatim to the error sink. -/
def writeErr (s : Sinks) (text : String) : Sinks := { s with err := s.err ++ text }

/-- The success printer: `JSON.stringify(value, null, 2)` plus a newline,
written to the output sink. -/
def printJson (s : Sinks) (v : Json) : Sinks :=
  writeOut s (jsonStringify v ++ "\n")

/-- JavaScript truthiness of the optional `responseText` field: absent or
empty means falsy. -/
def strTruthy : Option String → Bool
  | none => false
  | some t => decide (t ≠ "")

/-- JavaScript truthiness of the optional `validationError` field. -/
def jsonTruthy : Option Json → Bool
  | none => false
  | some Json.null => false
  | some (Json.bool b) => b
  | some (Json.num n) => decide (n ≠ 0)
  | some (Json.str s) => decide (s ≠ [])
  | some (Json.arr _) => true
  | some (Json.obj _) => true

/-- The error normalizer `printError`, translated branch for branch: the
validation branch writes the header, status and url lines to the error
sink, the response line when the response text is truthy, and then — via
`printJson`, which writes to the output sink — the validation detail under
the key `validationError`; the remaining branches write only to the error
sink. -/
def printError (s : Sinks) (e : CliError) : Sinks :=
  match e with
  | CliError.apiValidation name message statusCode url responseText validationError =>
      let s1 := writeErr s (name ++ ": " ++ message ++ "\n")
      let s2 := writeErr s1 ("status: " ++ toString statusCode ++ "\n")
      let s3 := writeErr s2 ("url: " ++ url ++ "\n")
      let s4 := if strTruthy responseText then
          writeErr s3 ("response: " ++ responseText.getD "" ++ "\n")
        else s3
      if jsonTruthy validationError then
        printJson s4 (Json.obj [("validationError".data, validationError.getD Json.null)])
      else s4
  | CliError.apiStatus name message statusCode url responseText =>
      let s1 := writeErr s (name ++ ": " ++ message ++ "\n")
      let s2 := writeErr s1 ("status: " ++ toString statusCode ++ "\n")
      let s3 := writeErr s2 ("url: " ++ url ++ "\n")
      if strTruthy responseText then
        writeErr s3 ("response: " ++ responseText.getD "" ++ "\n")
      else s3
  | CliError.configuration name message => writeErr s (name ++ ": " ++ message ++ "\n")
  | CliError.generic name message => writeErr s (name ++ ": " ++ message ++ "\n")
  | CliError.nonError display => writeErr (writeErr s display) "\n"

/-- The error thrown when both `--json` and `--json-file` are supplied. -/
def jsonConflictError : CliError :=
  CliError.generic "Error" "Provide only one of --json or --json-file"

/-- The error thrown when neither `--json` nor `--json-file` is supplied. -/
def jsonMissingError : CliError :=
  CliError.generic "Error" "Missing JSON input. Provide --json or --json-file."

/-- The syntax error `JSON.parse` throws on malformed input (the message
text is engine-defined; only the kind matters here). -/
def jsonSyntaxError : CliError :=
  CliError.generic "SyntaxError" "Unexpected token in JSON"

/-- The filesystem error `readFile` rejects with when the named file cannot
be read (the message text is system-defined; only the kind matters here). -/
def fileReadError : CliError :=
  CliError.generic "Error" "ENOENT: no such file or directory"

/-- Result of `readJsonInput`: the resolved body or the thrown error, and
how many times standard input was read. -/
structure JsonInputResult where
  result : Except CliError Json
  stdinReads : Nat

/-- The JSON request-body resolution `readJsonInput`, translated check for
check: both sources present is an error; a present `jsonFile` reads
standard input for the sentinel `-` and the named file otherwise; a present
`json` reads standard input for the sentinel `-` and uses the inline string
otherwise; the resolved text is parsed as JSON; neither source present is
an error.  The filesystem is a map from path to readable content, and the
full content of standard input is `stdin`. -/
def readJsonInput (stdin : String) (fs : String → Option String)
    (json jsonFile : Option String) : JsonInputResult :=
  match json, jsonFile with
  | some _, some _ => ⟨Except.error jsonConflictError, 0⟩
  | _, some f =>
      if f = "-" then
        match jsonParse stdin with
        | some v => ⟨Except.ok v, 1⟩
        | none => ⟨Except.error jsonSyntaxError, 1⟩
      else
        match fs f with
        | some text =>
            match jsonParse text with
            | some v => ⟨Except.ok v, 0⟩
            | none => ⟨Except.error jsonSyntaxError, 0⟩
        | none => ⟨Except.error fileReadError, 0⟩
  | some j, none =>
      if j = "-" then
        match jsonParse stdin with
        | some v => ⟨Except.ok v, 1⟩
        | none => ⟨Except.error jsonSyntaxError, 1⟩
      else
        match jsonParse j with
        | some v => ⟨Except.ok v, 0⟩
        | none => ⟨Except.error jsonSyntaxError, 0⟩
  | none, none => ⟨Except.error jsonMissingError, 0⟩

/-- Parsed options of `agents run`. -/
structure AgentsRunOpts where
  json : Option String
  jsonFile : Option String
  stream : Bool
  timeoutMs : Option JSNum

/-- The observable steps of one `agents run` dispatch: the client
constructor invocation and the client calls, in order. -/
inductive RunEvent where
  | clientConstructed
  | call (c : ClientCall)

/-- The error thrown when the installed client lacks the streaming
operation. -/
def streamingUnsupportedError : CliError :=
  CliError.generic "Error"
    ("This version of @seclai/sdk does not support streaming agent runs yet. "
      ++ "Upgrade @seclai/sdk to a version that includes runStreamingAgentAndWait.")

/-- The streaming options argument built by the `agents run` action:
`opts.timeoutMs !== undefined ? \x7b timeoutMs: opts.timeoutMs \x7d :
undefined` — the object, with its single key, exists only when
`--timeout-ms` was supplied. -/
def streamingOpts (timeoutMs : Option JSNum) : Option (List (String × JsValue)) :=
  match timeoutMs with
  | some t => some [("timeoutMs", JsValue.num t)]
  | none => none

/-- The body of the `agents run` action in source order: invoke the client
constructor, resolve the JSON body, then either probe for and invoke the
streaming operation — passing a timeout options object only when
`--timeout-ms` was supplied — or invoke `runAgent`.  The constructor itself
may fail (`new Seclai` throws a `SeclaiConfigurationError` when no API key
is available, as the repository's test double shows), so its outcome is the
`construction` argument: a failure there propagates through the same error
path as a call failure, before the input is resolved.  The
`clientConstructed` event marks the constructor invocation, successful or
not.  `respond` gives the remote client's answer to a call; the returned
JSON is what the action then prints. -/
def agentsRunMain (agentId : String) (o : AgentsRunOpts) (stdin : String)
    (fs : String → Option String) (construction : Except CliError Unit)
    (streamSupported : Bool) (respond : ClientCall → Except CliError Json) :
    List RunEvent × Except CliError Json :=
  let events := [RunEvent.clientConstructed]
  match construction with
  | Except.error e => (events, Except.error e)
  | Except.ok _ =>
      match (readJsonInput stdin fs o.json o.jsonFile).result with
      | Except.error e => (events, Except.error e)
      | Except.ok body =>
          if o.stream then
            if streamSupported then
              let c := ClientCall.runStreamingAgentAndWait agentId body
                (streamingOpts o.timeoutMs)
              (events ++ [RunEvent.call c], respond c)
            else (events, Except.error streamingUnsupportedError)
          else
            let c := ClientCall.runAgent agentId body
            (events ++ [RunEvent.call c], respond c)

/-- How one `program.parseAsync` invocation ends: normal completion, a
`CommanderError` carrying the parser's own numeric exit code (help, version
or usage-error short circuit under `exitOverride`), or some other thrown
value. -/
inductive ParseOutcome where
  | completed
  | commanderError (exitCode : Int)
  | thrown (e : CliError)

/-- The exit code `runCli` derives from the way parsing ended: zero on
normal completion, the parser's own code on a `CommanderError`, one on any
other thrown value (which is also printed). -/
def parserExitCode : ParseOutcome → Int
  | ParseOutcome.completed => 0
  | ParseOutcome.commanderError c => c
  | ParseOutcome.thrown _ => 1

/-- The value of the `observedExitCode` accumulator after the dispatch's
`setExitCode` calls: the most recently set code, zero if none was set. -/
def lastExitCode (calls : List Int) : Int := calls.foldl (fun _ c => c) 0

/-- The exit-code resolution of `runCli`: given the `setExitCode` calls the
dispatch made through the wrapped runtime and the way parsing ended, it
prefers a non-zero observed code over the parser-derived code, sets the
final code through the runtime's setter as its final act, and returns it.
The second component is the full sequence of codes the underlying runtime's
setter received. -/
def runCli (dispatchExitCalls : List Int) (outcome : ParseOutcome) : Int × List Int :=
  let observedExitCode := lastExitCode dispatchExitCalls
  let exitCode := parserExitCode outcome
  let finalExitCode := if observedExitCode ≠ 0 then observedExitCode else exitCode
  (finalExitCode, dispatchExitCalls ++ [finalExitCode])

/-- Modelled from the spec: the argument parser is an external library
capability, and on a group-only invocation (a command group selected with
no leaf) it renders the group's usage help through the configured output
writer and short-circuits with its help-display signal, whose exit code for
help display is zero.  No leaf action runs, so the dispatch makes no
`setExitCode` call. -/
def groupOnlyParse (helpText : String) : ParseOutcome × String :=
  (ParseOutcome.commanderError 0, helpText)

/-! ### Character and digit lemmas -/

theorem toNat_ofNat_valid (n : Nat) (h : n.isValidChar) : (Char.ofNat n).toNat = n := by
  unfold Char.ofNat
  rw [dif_pos h]
  unfold Char.ofNatAux Char.toNat
  simp [UInt32.toNat, BitVec.toNat_ofNatLt]

theorem ofNat_toNat_c (c : Char) : Char.ofNat c.toNat = c := by
  have h : c.toNat.isValidChar := c.valid
  apply Char.eq_of_val_eq
  unfold Char.ofNat
  rw [dif_pos h]
  unfold Char.ofNatAux
  apply UInt32.eq_of_toBitVec_eq
  apply BitVec.eq_of_toNat_eq
  simp [BitVec.toNat_ofNatLt, Char.toNat, UInt32.toNat]

theorem isDigitCh_digitChar (d : Nat) (h : d < 10) : isDigitCh (digitChar d) = true := by
  have hv : (48 + d).isValidChar := Or.inl (by omega)
  simp [isDigitCh, digitChar, toNat_ofNat_valid _ hv]
  omega

theorem digitVal_digitChar (d : Nat) (h : d < 10) : digitVal (digitChar d) = d := by
  have hv : (48 + d).isValidChar := Or.inl (by omega)
  simp [digitVal, digitChar, toNat_ofNat_valid _ hv]

theorem ne_of_digit {c c' : Char} (hd : isDigitCh c = true) (h : isDigitCh c' = false) :
    ¬ (c = c') := by
  intro he
  subst he
  rw [hd] at h
  cases h

theorem isWsCh_false_of_digit {c : Char} (hd : isDigitCh c = true) : isWsCh c = false := by
  rw [Bool.eq_false_iff]
  intro hw
  simp only [isWsCh, Bool.or_eq_true, decide_eq_true_eq] at hw
  rcases hw with ((h | h) | h) | h <;> subst h <;> exact absurd hd (by decide)

/-! ### Decimal digit lists -/

theorem leDigits_lt (fuel n : Nat) : ∀ d ∈ leDigits fuel n, d < 10 := by
  induction fuel generalizing n with
  | zero => simp [leDigits]
  | succ f ih =>
      by_cases h : n = 0
      · simp [leDigits, h]
      · simp only [leDigits, if_neg h, List.mem_cons]
        rintro d (rfl | hd)
        · omega
        · exact ih _ d hd

theorem ofLE_leDigits (fuel n : Nat) (h : n < 10 ^ fuel) : ofLE (leDigits fuel n) = n := by
  induction fuel generalizing n with
  | zero => simp at h; simp [leDigits, ofLE, h]
  | succ f ih =>
      by_cases h0 : n = 0
      · simp [leDigits, h0, ofLE]
      · rw [leDigits, if_neg h0, ofLE]
        have hdiv : n / 10 < 10 ^ f := by
          rw [Nat.div_lt_iff_lt_mul (by omega : 0 < 10)]
          calc n < 10 ^ (f + 1) := h
            _ = 10 ^ f * 10 := by rw [pow_succ]
        rw [ih _ hdiv]
        omega

theorem digitsVal_append_one (l : List Nat) (d : Nat) :
    digitsVal (l ++ [d]) = digitsVal l * 10 + d := by
  simp [digitsVal, List.foldl_append]

theorem digitsVal_reverse_ofLE (l : List Nat) : digitsVal l.reverse = ofLE l := by
  induction l with
  | nil => rfl
  | cons d ds ih =>
      rw [List.reverse_cons, digitsVal_append_one, ih, ofLE]
      ring

theorem map_digitVal_digitChar (l : List Nat) (h : ∀ d ∈ l, d < 10) :
    (l.map digitChar).map digitVal = l := by
  induction l with
  | nil => rfl
  | cons d ds ih =>
      simp only [List.map_cons, List.cons.injEq]
      exact ⟨digitVal_digitChar d (h d (by simp)), ih (fun d hd => h d (by simp [hd]))⟩

theorem natChars_all_digits (n : Nat) : ∀ c ∈ natChars n, isDigitCh c = true := by
  unfold natChars
  by_cases h : n = 0
  · subst h
    intro c hc
    simp at hc
    subst hc
    decide
  · simp only [if_neg h, List.mem_reverse, List.mem_map]
    rintro c ⟨d, hd, rfl⟩
    exact isDigitCh_digitChar d (leDigits_lt _ _ d hd)

theorem natChars_ne_nil (n : Nat) : natChars n ≠ [] := by
  unfold natChars
  by_cases h : n = 0
  · simp [h]
  · simp only [if_neg h]
    rw [leDigits, if_neg h]
    simp

theorem digitsVal_natChars (n : Nat) : digitsVal (natChars n |>.map digitVal) = n := by
  unfold natChars
  by_cases h : n = 0
  · simp [h]
    decide
  · rw [if_neg h, List.map_reverse, map_digitVal_digitChar _ (leDigits_lt _ _),
      digitsVal_reverse_ofLE, ofLE_leDigits]
    calc n < 10 ^ n := Nat.lt_pow_self (by omega) n
      _ ≤ 10 ^ (n + 1) := Nat.pow_le_pow_right (by omega) (by omega)

theorem takeDigits_of_digits (l rest : List Char) (hl : ∀ c ∈ l, isDigitCh c = true)
    (hrest : ∀ c, rest.head? = some c → isDigitCh c = false) :
    takeDigits (l ++ rest) = (l.map digitVal, rest) := by
  induction l with
  | nil =>
      cases rest with
      | nil => rfl
      | cons c t =>
          simp only [List.nil_append, List.map_nil]
          rw [takeDigits, if_neg]
          simp [hrest c rfl]
  | cons c l ih =>
      simp only [List.cons_append, List.map_cons]
      rw [takeDigits, if_pos (hl c (by simp)),
        ih (fun c hc => hl c (by simp [hc]))]

theorem head_not_digit_of_stop {rest : List Char} (hs : Stop rest) :
    ∀ c, rest.head? = some c → isDigitCh c = false := by
  intro c hc
  rcases hs with h | ⟨t, h⟩ | ⟨t, h⟩ <;> subst h <;> simp at hc <;> subst hc <;> decide

theorem pNatNum_natChars (n : Nat) (rest : List Char) (hs : Stop rest) :
    pNatNum (natChars n ++ rest) = some (n, rest) := by
  simp only [pNatNum]
  rw [takeDigits_of_digits _ _ (natChars_all_digits n) (head_not_digit_of_stop hs)]
  have hne : (natChars n |>.map digitVal) ≠ [] := by
    intro h
    exact natChars_ne_nil n (List.map_eq_nil_iff.mp h)
  rw [if_neg (by simp [List.isEmpty_iff, hne])]
  rw [if_neg ?hd]
  · rw [digitsVal_natChars]
  case hd =>
    rcases hs with h | ⟨t, h⟩ | ⟨t, h⟩ <;> subst h <;> simp

/-! ### Whitespace skipping -/

theorem skipWs_not_ws {cs : List Char} (h : ∀ c, cs.head? = some c → isWsCh c = false) :
    skipWs cs = cs := by
  cases cs with
  | nil => rfl
  | cons c t =>
      rw [skipWs, List.dropWhile_cons, h c rfl]
      simp

theorem skipWs_wsLead (ws cs : List Char) (h : ∀ c ∈ ws, isWsCh c = true) :
    skipWs (ws ++ cs) = skipWs cs := by
  induction ws with
  | nil => rfl
  | cons w t ih =>
      rw [List.cons_append, skipWs, List.dropWhile_cons, h w (by simp)]
      simp only [if_true]
      exact ih (fun c hc => h c (by simp [hc]))

theorem skipWs_sp (n : Nat) (cs : List Char) : skipWs (sp n ++ cs) = skipWs cs :=
  skipWs_wsLead _ _ (fun c hc => by
    rw [sp] at hc
    rw [List.eq_of_mem_replicate hc]
    decide)

theorem skipWs_nl (cs : List Char) : skipWs ('\n' :: cs) = skipWs cs := by
  rw [skipWs, List.dropWhile_cons]
  simp only [show isWsCh '\n' = true from by decide, if_true]
  rfl

/-! ### Head shape of serialized values -/

theorem serJson_head (ind : Nat) (v : Json) :
    ∃ c t, serJson ind v = c :: t ∧ isWsCh c = false ∧ c ≠ ']' ∧ c ≠ '}' ∧ c ≠ ',' := by
  cases v with
  | null => exact ⟨'n', _, rfl, by decide, by decide, by decide, by decide⟩
  | bool b =>
      cases b with
      | true => exact ⟨'t', _, rfl, by decide, by decide, by decide, by decide⟩
      | false => exact ⟨'f', _, rfl, by decide, by decide, by decide, by decide⟩
  | num n =>
      show ∃ c t, intChars n = c :: t ∧ _
      rw [intChars]
      by_cases hn : n < 0
      · rw [if_pos hn]
        exact ⟨'-', _, rfl, by decide, by decide, by decide, by decide⟩
      · rw [if_neg hn]
        obtain ⟨c, t, hct⟩ := List.exists_cons_of_ne_nil (natChars_ne_nil n.natAbs)
        have hd : isDigitCh c = true := natChars_all_digits _ c (by rw [hct]; simp)
        exact ⟨c, t, hct, isWsCh_false_of_digit hd, ne_of_digit hd (by decide),
          ne_of_digit hd (by decide), ne_of_digit hd (by decide)⟩
  | str s => exact ⟨'"', _, rfl, by decide, by decide, by decide, by decide⟩
  | arr xs =>
      cases xs with
      | nil => exact ⟨'[', _, rfl, by decide, by decide, by decide, by decide⟩
      | cons x xs => exact ⟨'[', _, rfl, by decide, by decide, by decide, by decide⟩
  | obj fs =>
      cases fs with
      | nil => exact ⟨'{', _, rfl, by decide, by decide, by decide, by decide⟩
      | cons f fs => exact ⟨'{', _, rfl, by decide, by decide, by decide, by decide⟩

/-! ### String escape round trip -/

theorem hexVal_hexChar (d : Nat) (h : d < 16) : hexVal? (hexChar d) = some d := by
  interval_cases d <;> decide

theorem pStringBody_escBody (s rest : List Char) :
    pStringBody (escBody s ++ '"' :: rest) = some (s, rest) := by
  induction s with
  | nil =>
      rw [show escBody [] = [] from by simp [escBody], List.nil_append, pStringBody.eq_def]
      simp only [if_true]
  | cons c s ih =>
      by_cases h1 : c = '"'
      · subst h1
        show (pStringBody (escBody s ++ '"' :: rest)).map (fun p => ('"' :: p.1, p.2)) = _
        rw [ih]
        rfl
      by_cases h2 : c = '\\'
      · subst h2
        show (pStringBody (escBody s ++ '"' :: rest)).map (fun p => ('\\' :: p.1, p.2)) = _
        rw [ih]
        rfl
      by_cases h3 : c = Char.ofNat 8
      · subst h3
        show (pStringBody (escBody s ++ '"' :: rest)).map
          (fun p => (Char.ofNat 8 :: p.1, p.2)) = _
        rw [ih]
        rfl
      by_cases h4 : c = Char.ofNat 12
      · subst h4
        show (pStringBody (escBody s ++ '"' :: rest)).map
          (fun p => (Char.ofNat 12 :: p.1, p.2)) = _
        rw [ih]
        rfl
      by_cases h5 : c = '\n'
      · subst h5
        show (pStringBody (escBody s ++ '"' :: rest)).map (fun p => ('\n' :: p.1, p.2)) = _
        rw [ih]
        rfl
      by_cases h6 : c = '\r'
      · subst h6
        show (pStringBody (escBody s ++ '"' :: rest)).map (fun p => ('\r' :: p.1, p.2)) = _
        rw [ih]
        rfl
      by_cases h7 : c = '\t'
      · subst h7
        show (pStringBody (escBody s ++ '"' :: rest)).map (fun p => ('\t' :: p.1, p.2)) = _
        rw [ih]
        rfl
      by_cases h8 : c.toNat < 32
      · rw [show escBody (c :: s) = escChar c ++ escBody s from by simp [escBody],
          show escChar c
              = ['\\', 'u', '0', '0', hexChar (c.toNat / 16), hexChar (c.toNat % 16)] from by
            simp [escChar, h1, h2, h3, h4, h5, h6, h7, h8],
          List.append_assoc]
        simp only [List.cons_append, List.nil_append]
        rw [pStringBody.eq_def]
        simp only [reduceIte, show hexVal? '0' = some 0 from by decide,
          hexVal_hexChar _ (show c.toNat / 16 < 16 from by omega),
          hexVal_hexChar _ (show c.toNat % 16 < 16 from by omega)]
        rw [if_neg (show ¬('\\' = '"') from by decide)]
        rw [show ((0 * 16 + 0) * 16 + c.toNat / 16) * 16 + c.toNat % 16 = c.toNat from by omega]
        rw [if_pos (show c.toNat.isValidChar from c.valid)]
        rw [ofNat_toNat_c, ih]
        rfl
      · rw [show escBody (c :: s) = c :: escBody s from by
          simp [escBody, escChar, h1, h2, h3, h4, h5, h6, h7, h8]]
        rw [List.cons_append, pStringBody.eq_def]
        simp only
        rw [if_neg h1, if_neg h2, ih]
        rfl

/-! ### Helpers for the parsing round trip -/

theorem jfuel_pos (v : Json) : 1 ≤ jfuel v := by
  cases v <;> simp [jfuel]

theorem nlSp_ws (n : Nat) : ∀ c ∈ '\n' :: sp n, isWsCh c = true := by
  intro c hc
  rcases List.mem_cons.mp hc with h | h
  · subst h
    decide
  · rw [sp] at h
    rw [List.eq_of_mem_replicate h]
    decide

theorem oneSpace_ws : ∀ c ∈ [' '], isWsCh c = true := by
  intro c hc
  simp at hc
  subst hc
  decide

theorem stop_nil : Stop [] := Or.inl rfl

theorem stop_comma (t : List Char) : Stop (',' :: t) := Or.inr (Or.inl ⟨t, rfl⟩)

theorem stop_nl (t : List Char) : Stop ('\n' :: t) := Or.inr (Or.inr ⟨t, rfl⟩)

theorem pVal_succ (f : Nat) (c : Char) (cs cs0 : List Char) (h : skipWs cs0 = c :: cs) :
    pVal (f + 1) cs0 =
      (if c = 'n' then
        if cs.take 3 = ['u', 'l', 'l'] then some (Json.null, cs.drop 3) else none
      else if c = 't' then
        if cs.take 3 = ['r', 'u', 'e'] then some (Json.bool true, cs.drop 3) else none
      else if c = 'f' then
        if cs.take 4 = ['a', 'l', 's', 'e'] then some (Json.bool false, cs.drop 4) else none
      else if c = '"' then
        (pStringBody cs).map (fun p => (Json.str p.1, p.2))
      else if c = '[' then
        if (skipWs cs).head? = some ']' then some (Json.arr [], (skipWs cs).tail)
        else (pElems f cs).map (fun p => (Json.arr p.1, p.2))
      else if c = '{' then
        if (skipWs cs).head? = some '}' then some (Json.obj [], (skipWs cs).tail)
        else (pFields f cs).map (fun p => (Json.obj p.1, p.2))
      else if c = '-' then
        (pNatNum cs).map (fun p => (Json.num (-(p.1 : Int)), p.2))
      else
        (pNatNum (c :: cs)).map (fun p => (Json.num (p.1 : Int), p.2))) := by
  rw [pVal, h]

mutual

theorem pVal_ser : ∀ (v : Json) (ind fuel : Nat) (ws rest : List Char),
    (∀ c ∈ ws, isWsCh c = true) → jfuel v ≤ fuel → Stop rest →
    pVal fuel (ws ++ (serJson ind v ++ rest)) = some (v, rest)
  | v, _, 0, _, _, _, hf, _ => absurd hf (by have := jfuel_pos v; omega)
  | Json.null, ind, f + 1, ws, rest, hws, hf, hr => by
      have hskip : skipWs (ws ++ (serJson ind Json.null ++ rest))
          = 'n' :: (['u', 'l', 'l'] ++ rest) := by
        rw [skipWs_wsLead _ _ hws,
          show serJson ind Json.null = ['n', 'u', 'l', 'l'] from rfl,
          show (['n', 'u', 'l', 'l'] : List Char) ++ rest
            = 'n' :: (['u', 'l', 'l'] ++ rest) from by simp]
        exact skipWs_not_ws (by intro c hc; simp at hc; subst hc; decide)
      rw [pVal_succ _ _ _ _ hskip, if_pos rfl,
        show (['u', 'l', 'l'] ++ rest).take 3 = ['u', 'l', 'l'] from by simp, if_pos rfl,
        show (['u', 'l', 'l'] ++ rest).drop 3 = rest from by simp]
  | Json.bool true, ind, f + 1, ws, rest, hws, hf, hr => by
      have hskip : skipWs (ws ++ (serJson ind (Json.bool true) ++ rest))
          = 't' :: (['r', 'u', 'e'] ++ rest) := by
        rw [skipWs_wsLead _ _ hws,
          show serJson ind (Json.bool true) = ['t', 'r', 'u', 'e'] from rfl,
          show (['t', 'r', 'u', 'e'] : List Char) ++ rest
            = 't' :: (['r', 'u', 'e'] ++ rest) from by simp]
        exact skipWs_not_ws (by intro c hc; simp at hc; subst hc; decide)
      rw [pVal_succ _ _ _ _ hskip, if_neg (by decide), if_pos rfl,
        show (['r', 'u', 'e'] ++ rest).take 3 = ['r', 'u', 'e'] from by simp, if_pos rfl,
        show (['r', 'u', 'e'] ++ rest).drop 3 = rest from by simp]
  | Json.bool false, ind, f + 1, ws, rest, hws, hf, hr => by
      have hskip : skipWs (ws ++ (serJson ind (Json.bool false) ++ rest))
          = 'f' :: (['a', 'l', 's', 'e'] ++ rest) := by
        rw [skipWs_wsLead _ _ hws,
          show serJson ind (Json.bool false) = ['f', 'a', 'l', 's', 'e'] from rfl,
          show (['f', 'a', 'l', 's', 'e'] : List Char) ++ rest
            = 'f' :: (['a', 'l', 's', 'e'] ++ rest) from by simp]
        exact skipWs_not_ws (by intro c hc; simp at hc; subst hc; decide)
      rw [pVal_succ _ _ _ _ hskip, if_neg (by decide), if_neg (by decide), if_pos rfl,
        show (['a', 'l', 's', 'e'] ++ rest).take 4 = ['a', 'l', 's', 'e'] from by simp, if_pos rfl,
        show (['a', 'l', 's', 'e'] ++ rest).drop 4 = rest from by simp]
  | Json.num n, ind, f + 1, ws, rest, hws, hf, hr => by
      by_cases hn : n < 0
      · have hskip : skipWs (ws ++ (serJson ind (Json.num n) ++ rest))
            = '-' :: (natChars n.natAbs ++ rest) := by
          rw [skipWs_wsLead _ _ hws, show serJson ind (Json.num n) = intChars n from rfl,
            intChars, if_pos hn,
            show ('-' :: natChars n.natAbs) ++ rest = '-' :: (natChars n.natAbs ++ rest) from by
              simp]
          exact skipWs_not_ws (by intro c hc; simp at hc; subst hc; decide)
        rw [pVal_succ _ _ _ _ hskip, if_neg (by decide), if_neg (by decide), if_neg (by decide),
          if_neg (by decide), if_neg (by decide), if_neg (by decide), if_pos rfl,
          pNatNum_natChars _ _ hr]
        have habs : -((n.natAbs : Nat) : Int) = n := by omega
        show some (Json.num (-((n.natAbs : Nat) : Int)), rest) = some (Json.num n, rest)
        rw [habs]
      · obtain ⟨d, t, hnat⟩ := List.exists_cons_of_ne_nil (natChars_ne_nil n.natAbs)
        have hd : isDigitCh d = true := natChars_all_digits _ d (by rw [hnat]; simp)
        have hskip : skipWs (ws ++ (serJson ind (Json.num n) ++ rest)) = d :: (t ++ rest) := by
          rw [skipWs_wsLead _ _ hws, show serJson ind (Json.num n) = intChars n from rfl,
            intChars, if_neg hn, hnat,
            show (d :: t) ++ rest = d :: (t ++ rest) from by simp]
          exact skipWs_not_ws (by
            intro c hc
            simp at hc
            subst hc
            exact isWsCh_false_of_digit hd)
        rw [pVal_succ _ _ _ _ hskip, if_neg (ne_of_digit hd (by decide)),
          if_neg (ne_of_digit hd (by decide)), if_neg (ne_of_digit hd (by decide)),
          if_neg (ne_of_digit hd (by decide)), if_neg (ne_of_digit hd (by decide)),
          if_neg (ne_of_digit hd (by decide)), if_neg (ne_of_digit hd (by decide)),
          show d :: (t ++ rest) = natChars n.natAbs ++ rest from by rw [hnat]; simp,
          pNatNum_natChars _ _ hr]
        have habs : ((n.natAbs : Nat) : Int) = n := by omega
        show some (Json.num ((n.natAbs : Nat) : Int), rest) = some (Json.num n, rest)
        rw [habs]
  | Json.str s, ind, f + 1, ws, rest, hws, hf, hr => by
      have hskip : skipWs (ws ++ (serJson ind (Json.str s) ++ rest))
          = '"' :: (escBody s ++ '"' :: rest) := by
        rw [skipWs_wsLead _ _ hws,
          show serJson ind (Json.str s) = '"' :: (escBody s ++ ['"']) from rfl,
          show ('"' :: (escBody s ++ ['"'])) ++ rest = '"' :: (escBody s ++ '"' :: rest) from by
            simp]
        exact skipWs_not_ws (by intro c hc; simp at hc; subst hc; decide)
      rw [pVal_succ _ _ _ _ hskip, if_neg (by decide), if_neg (by decide), if_neg (by decide),
        if_pos rfl, pStringBody_escBody]
      rfl
  | Json.arr [], ind, f + 1, ws, rest, hws, hf, hr => by
      have hskip : skipWs (ws ++ (serJson ind (Json.arr []) ++ rest)) = '[' :: (']' :: rest) := by
        rw [skipWs_wsLead _ _ hws, show serJson ind (Json.arr []) = ['[', ']'] from rfl,
          show (['[', ']'] : List Char) ++ rest = '[' :: (']' :: rest) from by simp]
        exact skipWs_not_ws (by intro c hc; simp at hc; subst hc; decide)
      rw [pVal_succ _ _ _ _ hskip, if_neg (by decide), if_neg (by decide), if_neg (by decide),
        if_neg (by decide), if_pos rfl,
        skipWs_not_ws (by intro c hc; simp at hc; subst hc; decide)]
      simp
  | Json.arr (x :: xs), ind, f + 1, ws, rest, hws, hf, hr => by
      obtain ⟨c0, t0, hser, hnws, hne1, hne2, hne3⟩ := serJson_head (ind + 2) x
      have hskip : skipWs (ws ++ (serJson ind (Json.arr (x :: xs)) ++ rest))
          = '[' :: ('\n' :: (serItems ind (x :: xs) ++ '\n' :: (sp ind ++ (']' :: rest)))) := by
        rw [skipWs_wsLead _ _ hws,
          show serJson ind (Json.arr (x :: xs))
            = '[' :: '\n' :: (serItems ind (x :: xs) ++ '\n' :: (sp ind ++ [']'])) from rfl,
          show ('[' :: '\n' :: (serItems ind (x :: xs) ++ '\n' :: (sp ind ++ [']']))) ++ rest
            = '[' :: ('\n' :: (serItems ind (x :: xs) ++ '\n' :: (sp ind ++ (']' :: rest))))
            from by simp]
        exact skipWs_not_ws (by intro c hc; simp at hc; subst hc; decide)
      rw [pVal_succ _ _ _ _ hskip, if_neg (by decide), if_neg (by decide), if_neg (by decide),
        if_neg (by decide), if_pos rfl]
      have hItems : ∃ R, serItems ind (x :: xs) = sp (ind + 2) ++ (serJson (ind + 2) x ++ R) := by
        cases xs with
        | nil => exact ⟨[], by simp [serItems]⟩
        | cons y ys => exact ⟨',' :: '\n' :: serItems ind (y :: ys), by simp [serItems]⟩
      obtain ⟨R, hR⟩ := hItems
      have hinner : skipWs ('\n' :: (serItems ind (x :: xs) ++ '\n' :: (sp ind ++ (']' :: rest))))
          = c0 :: (t0 ++ (R ++ '\n' :: (sp ind ++ (']' :: rest)))) := by
        rw [hR, skipWs_nl,
          show (sp (ind + 2) ++ (serJson (ind + 2) x ++ R)) ++ '\n' :: (sp ind ++ (']' :: rest))
            = sp (ind + 2) ++ (serJson (ind + 2) x ++ (R ++ '\n' :: (sp ind ++ (']' :: rest))))
            from by simp,
          skipWs_sp, hser,
          show (c0 :: t0) ++ (R ++ '\n' :: (sp ind ++ (']' :: rest)))
            = c0 :: (t0 ++ (R ++ '\n' :: (sp ind ++ (']' :: rest)))) from by simp]
        exact skipWs_not_ws (by intro c hc; simp at hc; subst hc; exact hnws)
      rw [hinner, if_neg (by simp [hne1]),
        pElems_ser x xs ind f rest (by simp only [jfuel, jfuelList] at hf ⊢ ; omega) hr]
      rfl
  | Json.obj [], ind, f + 1, ws, rest, hws, hf, hr => by
      have hskip : skipWs (ws ++ (serJson ind (Json.obj []) ++ rest)) = '{' :: ('}' :: rest) := by
        rw [skipWs_wsLead _ _ hws, show serJson ind (Json.obj []) = ['{', '}'] from rfl,
          show (['{', '}'] : List Char) ++ rest = '{' :: ('}' :: rest) from by simp]
        exact skipWs_not_ws (by intro c hc; simp at hc; subst hc; decide)
      rw [pVal_succ _ _ _ _ hskip, if_neg (by decide), if_neg (by decide), if_neg (by decide),
        if_neg (by decide), if_neg (by decide), if_pos rfl,
        skipWs_not_ws (by intro c hc; simp at hc; subst hc; decide)]
      simp
  | Json.obj ((k, v) :: fs), ind, f + 1, ws, rest, hws, hf, hr => by
      have hskip : skipWs (ws ++ (serJson ind (Json.obj ((k, v) :: fs)) ++ rest))
          = '{' :: ('\n' :: (serFields ind ((k, v) :: fs) ++ '\n' :: (sp ind ++ ('}' :: rest))))
          := by
        rw [skipWs_wsLead _ _ hws,
          show serJson ind (Json.obj ((k, v) :: fs))
            = '{' :: '\n' :: (serFields ind ((k, v) :: fs) ++ '\n' :: (sp ind ++ ['}'])) from rfl,
          show ('{' :: '\n' :: (serFields ind ((k, v) :: fs) ++ '\n' :: (sp ind ++ ['}']))) ++ rest
            = '{' :: ('\n' :: (serFields ind ((k, v) :: fs) ++ '\n' :: (sp ind ++ ('}' :: rest))))
            from by simp]
        exact skipWs_not_ws (by intro c hc; simp at hc; subst hc; decide)
      rw [pVal_succ _ _ _ _ hskip, if_neg (by decide), if_neg (by decide), if_neg (by decide),
        if_neg (by decide), if_neg (by decide), if_pos rfl]
      have hFields : ∃ R, serFields ind ((k, v) :: fs)
          = sp (ind + 2) ++ ('"' :: ((escBody k ++ ['"']) ++ (':' :: ' ' :: serJson (ind + 2) v))
              ++ R) := by
        cases fs with
        | nil =>
            refine ⟨[], ?_⟩
            rw [show serFields ind [(k, v)]
              = sp (ind + 2) ++ (quoteChars k ++ ':' :: ' ' :: serJson (ind + 2) v) from by
                simp [serFields]]
            simp [quoteChars]
        | cons f2 fs2 =>
            obtain ⟨k2, v2⟩ := f2
            refine ⟨',' :: '\n' :: serFields ind ((k2, v2) :: fs2), ?_⟩
            rw [show serFields ind ((k, v) :: (k2, v2) :: fs2)
              = sp (ind + 2) ++ (quoteChars k ++ ':' :: ' ' :: serJson (ind + 2) v)
                  ++ ',' :: '\n' :: serFields ind ((k2, v2) :: fs2) from by simp [serFields]]
            simp [quoteChars]
      obtain ⟨R, hR⟩ := hFields
      have hinner : skipWs ('\n' :: (serFields ind ((k, v) :: fs)
            ++ '\n' :: (sp ind ++ ('}' :: rest))))
          = '"' :: (((escBody k ++ ['"']) ++ (':' :: ' ' :: serJson (ind + 2) v))
              ++ (R ++ '\n' :: (sp ind ++ ('}' :: rest)))) := by
        rw [hR, skipWs_nl,
          show (sp (ind + 2) ++ ('"' :: ((escBody k ++ ['"']) ++ (':' :: ' '
                :: serJson (ind + 2) v)) ++ R)) ++ '\n' :: (sp ind ++ ('}' :: rest))
            = sp (ind + 2) ++ ('"' :: (((escBody k ++ ['"']) ++ (':' :: ' '
                :: serJson (ind + 2) v)) ++ (R ++ '\n' :: (sp ind ++ ('}' :: rest)))))
            from by simp,
          skipWs_sp]
        exact skipWs_not_ws (by intro c hc; simp at hc; subst hc; decide)
      rw [hinner, if_neg (by simp),
        pFields_ser k v fs ind f rest (by simp only [jfuel, jfuelFields] at hf ⊢ ; omega) hr]
      rfl

theorem pElems_ser : ∀ (x : Json) (xs : List Json) (ind fuel : Nat) (rest : List Char),
    jfuelList (x :: xs) ≤ fuel → Stop rest →
    pElems fuel ('\n' :: (serItems ind (x :: xs) ++ '\n' :: (sp ind ++ (']' :: rest))))
      = some (x :: xs, rest)
  | x, xs, ind, 0, rest, hf, hr => absurd hf (by simp only [jfuelList]; omega)
  | x, [], ind, f + 1, rest, hf, hr => by
      rw [pElems]
      rw [show '\n' :: (serItems ind [x] ++ '\n' :: (sp ind ++ (']' :: rest)))
          = ('\n' :: sp (ind + 2)) ++ (serJson (ind + 2) x
              ++ ('\n' :: (sp ind ++ (']' :: rest)))) from by
        rw [show serItems ind [x] = sp (ind + 2) ++ serJson (ind + 2) x from by simp [serItems]]
        simp]
      rw [pVal_ser x (ind + 2) f ('\n' :: sp (ind + 2)) ('\n' :: (sp ind ++ (']' :: rest)))
        (nlSp_ws _) (by simp only [jfuelList] at hf ⊢ ; omega) (stop_nl _)]
      simp only
      rw [skipWs_nl, skipWs_sp,
        skipWs_not_ws (by intro c hc; simp at hc; subst hc; decide)]
      simp only [if_true]
      simp
  | x, y :: ys, ind, f + 1, rest, hf, hr => by
      rw [pElems]
      rw [show '\n' :: (serItems ind (x :: y :: ys) ++ '\n' :: (sp ind ++ (']' :: rest)))
          = ('\n' :: sp (ind + 2)) ++ (serJson (ind + 2) x
              ++ (',' :: ('\n' :: (serItems ind (y :: ys)
                  ++ '\n' :: (sp ind ++ (']' :: rest)))))) from by
        rw [show serItems ind (x :: y :: ys)
          = sp (ind + 2) ++ serJson (ind + 2) x ++ ',' :: '\n' :: serItems ind (y :: ys) from by
            simp [serItems]]
        simp]
      rw [pVal_ser x (ind + 2) f ('\n' :: sp (ind + 2))
        (',' :: ('\n' :: (serItems ind (y :: ys) ++ '\n' :: (sp ind ++ (']' :: rest)))))
        (nlSp_ws _) (by simp only [jfuelList] at hf ⊢ ; omega) (stop_comma _)]
      simp only
      rw [skipWs_not_ws (by intro c hc; simp at hc; subst hc; decide)]
      simp only [if_true]
      rw [pElems_ser y ys ind f rest (by simp only [jfuelList] at hf ⊢ ; omega) hr]
      rfl

theorem pFields_ser : ∀ (k : List Char) (v : Json) (fs : List (List Char × Json))
    (ind fuel : Nat) (rest : List Char),
    jfuelFields ((k, v) :: fs) ≤ fuel → Stop rest →
    pFields fuel ('\n' :: (serFields ind ((k, v) :: fs) ++ '\n' :: (sp ind ++ ('}' :: rest))))
      = some ((k, v) :: fs, rest)
  | k, v, fs, ind, 0, rest, hf, hr => absurd hf (by simp only [jfuelFields]; omega)
  | k, v, [], ind, f + 1, rest, hf, hr => by
      rw [pFields]
      rw [show '\n' :: (serFields ind [(k, v)] ++ '\n' :: (sp ind ++ ('}' :: rest)))
          = '\n' :: (sp (ind + 2) ++ ('"' :: (escBody k
              ++ '"' :: ':' :: ' ' :: (serJson (ind + 2) v
                  ++ ('\n' :: (sp ind ++ ('}' :: rest))))))) from by
        rw [show serFields ind [(k, v)]
          = sp (ind + 2) ++ (quoteChars k ++ ':' :: ' ' :: serJson (ind + 2) v) from by
            simp [serFields]]
        simp [quoteChars]]
      rw [skipWs_nl, skipWs_sp,
        skipWs_not_ws (by intro c hc; simp at hc; subst hc; decide)]
      simp only [if_true]
      rw [pStringBody_escBody]
      simp only
      rw [skipWs_not_ws (by intro c hc; simp at hc; subst hc; decide)]
      simp only [if_true]
      rw [show ' ' :: (serJson (ind + 2) v ++ ('\n' :: (sp ind ++ ('}' :: rest))))
          = [' '] ++ (serJson (ind + 2) v ++ ('\n' :: (sp ind ++ ('}' :: rest)))) from by simp,
        pVal_ser v (ind + 2) f [' '] ('\n' :: (sp ind ++ ('}' :: rest))) oneSpace_ws
          (by simp only [jfuelFields] at hf ⊢ ; omega) (stop_nl _)]
      simp only
      rw [skipWs_nl, skipWs_sp,
        skipWs_not_ws (by intro c hc; simp at hc; subst hc; decide)]
      simp only [if_true]
      simp
  | k, v, (k2, v2) :: fs2, ind, f + 1, rest, hf, hr => by
      rw [pFields]
      rw [show '\n' :: (serFields ind ((k, v) :: (k2, v2) :: fs2)
            ++ '\n' :: (sp ind ++ ('}' :: rest)))
          = '\n' :: (sp (ind + 2) ++ ('"' :: (escBody k
              ++ '"' :: ':' :: ' ' :: (serJson (ind + 2) v
                  ++ (',' :: ('\n' :: (serFields ind ((k2, v2) :: fs2)
                      ++ '\n' :: (sp ind ++ ('}' :: rest))))))))) from by
        rw [show serFields ind ((k, v) :: (k2, v2) :: fs2)
          = sp (ind + 2) ++ (quoteChars k ++ ':' :: ' ' :: serJson (ind + 2) v)
              ++ ',' :: '\n' :: serFields ind ((k2, v2) :: fs2) from by simp [serFields]]
        simp [quoteChars]]
      rw [skipWs_nl, skipWs_sp,
        skipWs_not_ws (by intro c hc; simp at hc; subst hc; decide)]
      simp only [if_true]
      rw [pStringBody_escBody]
      simp only
      rw [skipWs_not_ws (by intro c hc; simp at hc; subst hc; decide)]
      simp only [if_true]
      rw [show ' ' :: (serJson (ind + 2) v ++ (',' :: ('\n' :: (serFields ind ((k2, v2) :: fs2)
            ++ '\n' :: (sp ind ++ ('}' :: rest))))))
          = [' '] ++ (serJson (ind + 2) v ++ (',' :: ('\n' :: (serFields ind ((k2, v2) :: fs2)
              ++ '\n' :: (sp ind ++ ('}' :: rest)))))) from by simp,
        pVal_ser v (ind + 2) f [' ']
          (',' :: ('\n' :: (serFields ind ((k2, v2) :: fs2) ++ '\n' :: (sp ind ++ ('}' :: rest)))))
          oneSpace_ws (by simp only [jfuelFields] at hf ⊢ ; omega) (stop_comma _)]
      simp only
      rw [skipWs_not_ws (by intro c hc; simp at hc; subst hc; decide)]
      simp only [if_true]
      rw [pFields_ser k2 v2 fs2 ind f rest (by simp only [jfuelFields] at hf ⊢ ; omega) hr]
      rfl

end

mutual

theorem jfuel_le_ser : ∀ (v : Json) (ind : Nat), jfuel v ≤ (serJson ind v).length
  | Json.null, ind => by simp [jfuel, serJson]
  | Json.bool b, ind => by cases b <;> simp [jfuel, serJson]
  | Json.num n, ind => by
      have hne : intChars n ≠ [] := by
        unfold intChars
        by_cases h : n < 0
        · simp [h]
        · simp [h, natChars_ne_nil]
      have hlen := List.length_pos.mpr hne
      simp only [jfuel, serJson]
      omega
  | Json.str s, ind => by
      simp only [jfuel, serJson, quoteChars]
      simp
  | Json.arr [], ind => by simp [jfuel, jfuelList, serJson]
  | Json.arr (x :: xs), ind => by
      have h := jfuelList_le_serItems x xs ind
      have e1 : jfuel (Json.arr (x :: xs)) = 1 + jfuelList (x :: xs) := rfl
      have e2 : serJson ind (Json.arr (x :: xs))
          = '[' :: '\n' :: (serItems ind (x :: xs) ++ '\n' :: (sp ind ++ [']'])) := rfl
      rw [e1, e2]
      simp [sp]
      omega
  | Json.obj [], ind => by simp [jfuel, jfuelFields, serJson]
  | Json.obj ((k, v) :: fs), ind => by
      have h := jfuelFields_le_serFields k v fs ind
      have e1 : jfuel (Json.obj ((k, v) :: fs)) = 1 + jfuelFields ((k, v) :: fs) := rfl
      have e2 : serJson ind (Json.obj ((k, v) :: fs))
          = '{' :: '\n' :: (serFields ind ((k, v) :: fs) ++ '\n' :: (sp ind ++ ['}'])) := rfl
      rw [e1, e2]
      simp [sp]
      omega
termination_by v _ => sizeOf v

theorem jfuelList_le_serItems : ∀ (x : Json) (xs : List Json) (ind : Nat),
    jfuelList (x :: xs) ≤ (serItems ind (x :: xs)).length
  | x, [], ind => by
      have h := jfuel_le_ser x (ind + 2)
      have e1 : jfuelList [x] = 1 + jfuel x + jfuelList [] := rfl
      have e2 : serItems ind [x] = sp (ind + 2) ++ serJson (ind + 2) x := rfl
      rw [e1, e2]
      simp [sp, jfuelList]
      omega
  | x, y :: ys, ind => by
      have h1 := jfuel_le_ser x (ind + 2)
      have h2 := jfuelList_le_serItems y ys ind
      have e1 : jfuelList (x :: y :: ys) = 1 + jfuel x + jfuelList (y :: ys) := rfl
      have e2 : serItems ind (x :: y :: ys)
          = sp (ind + 2) ++ serJson (ind + 2) x ++ ',' :: '\n' :: serItems ind (y :: ys) := rfl
      rw [e1, e2]
      simp [sp]
      omega
termination_by x xs _ => 1 + sizeOf x + sizeOf xs

theorem jfuelFields_le_serFields : ∀ (k : List Char) (v : Json)
    (fs : List (List Char × Json)) (ind : Nat),
    jfuelFields ((k, v) :: fs) ≤ (serFields ind ((k, v) :: fs)).length
  | k, v, [], ind => by
      have h := jfuel_le_ser v (ind + 2)
      have e1 : jfuelFields [(k, v)] = 1 + jfuel v + jfuelFields [] := rfl
      have e2 : serFields ind [(k, v)]
          = sp (ind + 2) ++ (quoteChars k ++ ':' :: ' ' :: serJson (ind + 2) v) := rfl
      rw [e1, e2]
      simp [sp, jfuelFields, quoteChars]
      omega
  | k, v, (k2, v2) :: fs2, ind => by
      have h1 := jfuel_le_ser v (ind + 2)
      have h2 := jfuelFields_le_serFields k2 v2 fs2 ind
      have e1 : jfuelFields ((k, v) :: (k2, v2) :: fs2)
          = 1 + jfuel v + jfuelFields ((k2, v2) :: fs2) := rfl
      have e2 : serFields ind ((k, v) :: (k2, v2) :: fs2)
          = sp (ind + 2) ++ (quoteChars k ++ ':' :: ' ' :: serJson (ind + 2) v)
              ++ ',' :: '\n' :: serFields ind ((k2, v2) :: fs2) := rfl
      rw [e1, e2]
      simp [sp, quoteChars]
      omega
termination_by _ v fs _ => 1 + sizeOf v + sizeOf fs

end

theorem jsonParse_stringify (v : Json) : jsonParse (jsonStringify v ++ "\n") = some v := by
  have hdata : (jsonStringify v ++ "\n").data = serJson 0 v ++ ['\n'] := by
    rw [String.data_append]
    rfl
  rw [jsonParse, hdata]
  have hfuel : jfuel v ≤ (serJson 0 v ++ ['\n']).length + 1 := by
    have := jfuel_le_ser v 0
    simp
    omega
  have hp := pVal_ser v 0 ((serJson 0 v ++ ['\n']).length + 1) [] ['\n'] (by simp) hfuel
    (stop_nl _)
  simp only [List.nil_append] at hp
  rw [hp]
  simp only
  rw [show skipWs ['\n'] = ([] : List Char) from rfl]
  simp

theorem foldl_last_zero : ∀ (l : List Int) (a : Int),
    (∀ c ∈ l, c = 0) → a = 0 → l.foldl (fun _ c => c) a = 0
  | [], a, _, ha => ha
  | c :: t, a, h, _ =>
      foldl_last_zero t c (fun x hx => h x (by simp [hx])) (h c (by simp))

/-! ### The claims -/

/-- C1, counterexample: on a `sources list` invocation with every option
omitted, the options object the action passes to `client.listSources` still
contains the key `page` — present and mapped to `undefined` — which
contradicts the claim that keys for omitted flags are absent from the
object rather than present with an undefined value. -/
theorem c1_counterexample :
    List.lookup "page" (listSourcesArg ⟨none, none, none, none, none⟩)
        = some JsValue.undef ∧
    ("page", JsValue.undef) ∈ listSourcesArg ⟨none, none, none, none, none⟩ :=
  ⟨rfl, List.Mem.head _⟩

/-- C1, amended: the `sources upload` options object and the streaming
options object of `agents run` contain their optional keys only when the
corresponding option was supplied (and never carry an undefined value),
while the option objects of `sources list`, `agents runs list` /
`contents embeddings` and `contents get` always contain every declared
key, mapping each omitted flag to `undefined`. -/
theorem c1_option_objects (o : SourcesListOpts) (u : SourcesUploadOpts) (bytes : List Nat)
    (pl : PageLimitOpts) (cg : ContentsGetOpts) :
    ((listSourcesArg o).map Prod.fst = ["page", "limit", "sort", "order", "accountId"]) ∧
    (o.page = none → List.lookup "page" (listSourcesArg o) = some JsValue.undef) ∧
    ((pageLimitArg pl).map Prod.fst = ["page", "limit"]) ∧
    (pl.limit = none → List.lookup "limit" (pageLimitArg pl) = some JsValue.undef) ∧
    ((getContentDetailArg cg).map Prod.fst = ["start", "end"]) ∧
    (cg.start = none → List.lookup "start" (getContentDetailArg cg) = some JsValue.undef) ∧
    ("title" ∈ (uploadFileToSourceArg bytes u).map Prod.fst ↔ u.title.isSome) ∧
    ("fileName" ∈ (uploadFileToSourceArg bytes u).map Prod.fst ↔ u.fileName.isSome) ∧
    ("mimeType" ∈ (uploadFileToSourceArg bytes u).map Prod.fst ↔ u.mimeType.isSome) ∧
    (∀ kv ∈ uploadFileToSourceArg bytes u, kv.2 ≠ JsValue.undef) ∧
    (streamingOpts none = none) ∧
    (∀ t, streamingOpts (some t) = some [("timeoutMs", JsValue.num t)]) := by
  obtain ⟨p, l, so, od, ai⟩ := o
  obtain ⟨t, fn, m⟩ := u
  obtain ⟨pp, ll⟩ := pl
  obtain ⟨cs, ce⟩ := cg
  refine ⟨rfl, ?_, rfl, ?_, rfl, ?_, ?_, ?_, ?_, ?_, rfl, fun _ => rfl⟩
  · rintro rfl
    rfl
  · rintro rfl
    rfl
  · rintro rfl
    rfl
  · cases t <;> cases fn <;> cases m <;> simp [uploadFileToSourceArg]
  · cases t <;> cases fn <;> cases m <;> simp [uploadFileToSourceArg]
  · cases t <;> cases fn <;> cases m <;> simp [uploadFileToSourceArg]
  · cases t <;> cases fn <;> cases m <;> simp [uploadFileToSourceArg]

/-- C1, witness for the amended claim: with only `--limit` supplied to
`sources list` the `page` key is still present with an undefined value, and
with `--title` supplied to `sources upload` the `title` key is present. -/
theorem c1_witness :
    List.lookup "page" (listSourcesArg ⟨none, some (JSNum.val 5), none, none, none⟩)
        = some JsValue.undef ∧
    ("title" ∈ (uploadFileToSourceArg [1] ⟨some "T", none, none⟩).map Prod.fst) :=
  ⟨(c1_option_objects ⟨none, some (JSNum.val 5), none, none, none⟩ ⟨some "T", none, none⟩
      [1] ⟨none, none⟩ ⟨none, none⟩).2.1 rfl,
   (c1_option_objects ⟨none, some (JSNum.val 5), none, none, none⟩ ⟨some "T", none, none⟩
      [1] ⟨none, none⟩ ⟨none, none⟩).2.2.2.2.2.2.1.mpr rfl⟩

/-- C2: the claim says every diagnostic line of an API Validation failure —
including the `validationError` pretty JSON — goes to the error sink and
nothing goes to the output sink.  The code routes the validation detail
through `printJson`, which writes to the output sink: evaluating
`printError` on a validation error with a truthy validation detail shows
the header, status, url and response lines on the error sink but the
`validationError` JSON block on the output sink, which is non-empty. -/
theorem c2_validation_detail_on_stdout :
    printError ⟨"", ""⟩ (CliError.apiValidation "SeclaiAPIValidationError"
        "Unprocessable Entity" 422 "https://api.seclai.com/agents" (some "nope")
        (some (Json.str ['b', 'a', 'd'])))
      = ⟨"\x7b\n  \"validationError\": \"bad\"\n\x7d\n",
         "SeclaiAPIValidationError: Unprocessable Entity\nstatus: 422\nurl: https://api.seclai.com/agents\nresponse: nope\n"⟩
      ∧ ("\x7b\n  \"validationError\": \"bad\"\n\x7d\n" : String) ≠ "" := by
  exact ⟨rfl, by decide⟩

/-- C3: the `agents runs get` leaf declares a single positional argument
`runId`, but its action handler takes two positionals plus options, so by
the parser's handler convention the options object is bound to the
handler's `runId` parameter and passed to `client.getAgentRun` as the run
id: on `agents runs get run_1` the first argument of the `getAgentRun`
call is the (empty) options object, not the supplied run id. -/
theorem c3_runs_get_mismatch :
    agentsRunsGetDeclaredArgs.length = 1 ∧
    agentsRunsGetAction (agentsRunsGetHandlerArgs "run_1" []) =
      ClientCall.getAgentRun (JsValue.obj []) JsValue.undef ∧
    (∀ s : String, JsValue.obj [] ≠ JsValue.str s) := by
  refine ⟨rfl, rfl, fun s h => ?_⟩
  cases h

/-- C4, counterexample: on an `agents run` invocation with both `--json`
and `--json-file` supplied and a client construction that succeeds, the
dispatch fails with the conflict error but the client constructor has
already been invoked — `clientConstructed` is in the event trace —
refuting the claim that the client constructor is never invoked in that
run. -/
theorem c4_counterexample :
    RunEvent.clientConstructed ∈
      (agentsRunMain "agent_1" ⟨some "null", some "null", false, none⟩ "" (fun _ => none)
        (Except.ok ()) true (fun _ => Except.ok Json.null)).1 ∧
    (agentsRunMain "agent_1" ⟨some "null", some "null", false, none⟩ "" (fun _ => none)
        (Except.ok ()) true (fun _ => Except.ok Json.null)).2
      = Except.error jsonConflictError :=
  ⟨List.Mem.head _, rfl⟩

/-- C4, amended: on an `agents run` invocation with both `--json` and
`--json-file` supplied, the client constructor is invoked before the input
is resolved; when the construction succeeds the action then fails with the
local conflict error, while a construction failure (for example the SDK's
configuration error on a missing API key) preempts the input error and is
reported instead; in either case no client operation is ever invoked. -/
theorem c4_conflict_before_call (agentId j jf stdin : String) (stream : Bool)
    (t : Option JSNum) (fs : String → Option String)
    (construction : Except CliError Unit) (sup : Bool)
    (respond : ClientCall → Except CliError Json) :
    (construction = Except.ok () →
      (agentsRunMain agentId ⟨some j, some jf, stream, t⟩ stdin fs construction sup
          respond).2
        = Except.error jsonConflictError) ∧
    (∀ e, construction = Except.error e →
      (agentsRunMain agentId ⟨some j, some jf, stream, t⟩ stdin fs construction sup
          respond).2
        = Except.error e) ∧
    (∀ c, RunEvent.call c ∉
      (agentsRunMain agentId ⟨some j, some jf, stream, t⟩ stdin fs construction sup
          respond).1) ∧
    RunEvent.clientConstructed ∈
      (agentsRunMain agentId ⟨some j, some jf, stream, t⟩ stdin fs construction sup
          respond).1 := by
  refine ⟨?_, ?_, fun c hc => ?_, ?_⟩
  · rintro rfl
    rfl
  · rintro e rfl
    rfl
  · rcases construction with e | u
    · rw [show (agentsRunMain agentId ⟨some j, some jf, stream, t⟩ stdin fs
          (Except.error e) sup respond).1 = [RunEvent.clientConstructed] from rfl] at hc
      simp at hc
    · rw [show (agentsRunMain agentId ⟨some j, some jf, stream, t⟩ stdin fs
          (Except.ok u) sup respond).1 = [RunEvent.clientConstructed] from rfl] at hc
      simp at hc
  · rcases construction with e | u
    · exact List.Mem.head _
    · exact List.Mem.head _

/-- C4, witness for the amended claim: with both flags supplied, a
successful construction yields the conflict error, and a failing
construction yields that configuration error instead. -/
theorem c4_witness :
    (agentsRunMain "agent_1" ⟨some "a", some "b", false, none⟩ "" (fun _ => none)
        (Except.ok ()) true (fun _ => Except.ok Json.null)).2
      = Except.error jsonConflictError ∧
    (agentsRunMain "agent_1" ⟨some "a", some "b", false, none⟩ "" (fun _ => none)
        (Except.error (CliError.configuration "SeclaiConfigurationError" "Missing API key"))
        true (fun _ => Except.ok Json.null)).2
      = Except.error (CliError.configuration "SeclaiConfigurationError" "Missing API key") :=
  ⟨(c4_conflict_before_call "agent_1" "a" "b" "" false none (fun _ => none) (Except.ok ())
      true (fun _ => Except.ok Json.null)).1 rfl,
   (c4_conflict_before_call "agent_1" "a" "b" "" false none (fun _ => none)
      (Except.error (CliError.configuration "SeclaiConfigurationError" "Missing API key"))
      true (fun _ => Except.ok Json.null)).2.1 _ rfl⟩

/-- C5: the JSON body resolution fails with the conflict error when both
sources are present; a `jsonFile` of `-` resolves from standard input and
any other `jsonFile` reads the named file; a `json` of `-` resolves from
standard input and any other `json` is used inline; the resolved text is
parsed as JSON, failing on malformed text; with neither source it fails
with the missing-input error; and standard input is never read more than
once. -/
theorem c5_readJsonInput (stdin : String) (fs : String → Option String)
    (json jsonFile : Option String) :
    (∀ j f, json = some j → jsonFile = some f →
      readJsonInput stdin fs json jsonFile = ⟨Except.error jsonConflictError, 0⟩) ∧
    (json = none → jsonFile = some "-" →
      (readJsonInput stdin fs json jsonFile).stdinReads = 1 ∧
      (∀ v, jsonParse stdin = some v →
        (readJsonInput stdin fs json jsonFile).result = Except.ok v) ∧
      (jsonParse stdin = none →
        (readJsonInput stdin fs json jsonFile).result = Except.error jsonSyntaxError)) ∧
    (∀ f, json = none → jsonFile = some f → f ≠ "-" →
      (readJsonInput stdin fs json jsonFile).stdinReads = 0 ∧
      (fs f = none →
        (readJsonInput stdin fs json jsonFile).result = Except.error fileReadError) ∧
      (∀ text, fs f = some text →
        (∀ v, jsonParse text = some v →
          (readJsonInput stdin fs json jsonFile).result = Except.ok v) ∧
        (jsonParse text = none →
          (readJsonInput stdin fs json jsonFile).result = Except.error jsonSyntaxError))) ∧
    (json = some "-" → jsonFile = none →
      (readJsonInput stdin fs json jsonFile).stdinReads = 1 ∧
      (∀ v, jsonParse stdin = some v →
        (readJsonInput stdin fs json jsonFile).result = Except.ok v) ∧
      (jsonParse stdin = none →
        (readJsonInput stdin fs json jsonFile).result = Except.error jsonSyntaxError)) ∧
    (∀ j, json = some j → j ≠ "-" → jsonFile = none →
      (readJsonInput stdin fs json jsonFile).stdinReads = 0 ∧
      (∀ v, jsonParse j = some v →
        (readJsonInput stdin fs json jsonFile).result = Except.ok v) ∧
      (jsonParse j = none →
        (readJsonInput stdin fs json jsonFile).result = Except.error jsonSyntaxError)) ∧
    (json = none → jsonFile = none →
      readJsonInput stdin fs json jsonFile = ⟨Except.error jsonMissingError, 0⟩) ∧
    (readJsonInput stdin fs json jsonFile).stdinReads ≤ 1 := by
  refine ⟨?_, ?_, ?_, ?_, ?_, ?_, ?_⟩
  · rintro j f rfl rfl
    rfl
  · rintro rfl rfl
    refine ⟨?_, fun v hv => ?_, fun hn => ?_⟩
    · cases hparse : jsonParse stdin <;> simp [readJsonInput, hparse]
    · simp [readJsonInput, hv]
    · simp [readJsonInput, hn]
  · rintro f rfl rfl hne
    refine ⟨?_, fun hn => ?_, fun text ht => ⟨fun v hv => ?_, fun hn => ?_⟩⟩
    · cases hfs : fs f with
      | none => simp [readJsonInput, hne, hfs]
      | some text => cases hparse : jsonParse text <;> simp [readJsonInput, hne, hfs, hparse]
    · simp [readJsonInput, hne, hn]
    · simp [readJsonInput, hne, ht, hv]
    · simp [readJsonInput, hne, ht, hn]
  · rintro rfl rfl
    refine ⟨?_, fun v hv => ?_, fun hn => ?_⟩
    · cases hparse : jsonParse stdin <;> simp [readJsonInput, hparse]
    · simp [readJsonInput, hv]
    · simp [readJsonInput, hn]
  · rintro j rfl hne rfl
    refine ⟨?_, fun v hv => ?_, fun hn => ?_⟩
    · cases hparse : jsonParse j <;> simp [readJsonInput, hne, hparse]
    · simp [readJsonInput, hne, hv]
    · simp [readJsonInput, hne, hn]
  · rintro rfl rfl
    rfl
  · rcases json with _ | j <;> rcases jsonFile with _ | f
    · simp [readJsonInput]
    · by_cases hf : f = "-"
      · subst hf
        cases hparse : jsonParse stdin <;> simp [readJsonInput, hparse]
      · cases hfs : fs f with
        | none => simp [readJsonInput, hf, hfs]
        | some text => cases hparse : jsonParse text <;> simp [readJsonInput, hf, hfs, hparse]
    · by_cases hj : j = "-"
      · subst hj
        cases hparse : jsonParse stdin <;> simp [readJsonInput, hparse]
      · cases hparse : jsonParse j <;> simp [readJsonInput, hj, hparse]
    · simp [readJsonInput]

/-- C5, witness: with both sources supplied the resolution fails with the
conflict error and does not read standard input; with `--json-file -` the
payload is resolved by reading standard input exactly once. -/
theorem c5_witness :
    readJsonInput "" (fun _ => none) (some "a") (some "b")
        = ⟨Except.error jsonConflictError, 0⟩ ∧
    (readJsonInput "null" (fun _ => none) none (some "-")).stdinReads = 1 :=
  ⟨(c5_readJsonInput "" (fun _ => none) (some "a") (some "b")).1 "a" "b" rfl rfl,
   ((c5_readJsonInput "null" (fun _ => none) none (some "-")).2.1 rfl rfl).1⟩

/-- C6: `runCli` returns the dispatch-observed exit code whenever the last
observed code is non-zero; the parser-derived code becomes the final code
only when no non-zero code was observed during dispatch; and the final code
is also the last code passed to the runtime's exit-code setter. -/
theorem c6_exit_code (calls : List Int) (outcome : ParseOutcome) :
    (lastExitCode calls ≠ 0 → (runCli calls outcome).1 = lastExitCode calls) ∧
    ((∀ c ∈ calls, c = 0) → (runCli calls outcome).1 = parserExitCode outcome) ∧
    (runCli calls outcome).2.getLast? = some (runCli calls outcome).1 := by
  refine ⟨fun h => ?_, fun h => ?_, ?_⟩
  · simp [runCli, h]
  · have hz : lastExitCode calls = 0 := foldl_last_zero calls 0 h rfl
    simp [runCli, hz]
  · simp [runCli]

/-- C6, witness: a dispatch that observed exit code 1 makes `runCli` return
1 regardless of the parser outcome, and with no observed code the parser's
own code 2 is returned. -/
theorem c6_witness :
    (runCli [1] ParseOutcome.completed).1 = lastExitCode [1] ∧
    (runCli [] (ParseOutcome.commanderError 2)).1
      = parserExitCode (ParseOutcome.commanderError 2) :=
  ⟨(c6_exit_code [1] ParseOutcome.completed).1 (by decide),
   (c6_exit_code [] (ParseOutcome.commanderError 2)).2.1 (by simp)⟩

/-- C7: on a group-only invocation the modelled parser renders the usage
help and signals help display with exit code 0; no leaf ran, so no exit
code was observed, and `runCli` resolves the final exit code to 0, with 0
as the only code passed to the runtime's setter. -/
theorem c7_group_only (helpText : String) :
    (runCli [] (groupOnlyParse helpText).1).1 = 0 ∧
    (runCli [] (groupOnlyParse helpText).1).2 = [0] ∧
    (groupOnlyParse helpText).2 = helpText :=
  ⟨rfl, rfl, rfl⟩

/-- C8: the success printer appends to the output sink exactly the
two-space pretty-printed JSON of the value followed by one newline, writes
nothing to the error sink, and parsing that output back as JSON yields the
original value. -/
theorem c8_printJson_roundtrip (s : Sinks) (v : Json) :
    (printJson s v).out = s.out ++ (jsonStringify v ++ "\n") ∧
    (printJson s v).err = s.err ∧
    jsonParse (jsonStringify v ++ "\n") = some v :=
  ⟨rfl, rfl, jsonParse_stringify v⟩

/-- C9: the numeric option converter `Number` maps a non-numeric string to
`NaN` without failing, and the dispatch passes the converted value through
untouched: `sources list` forwards it under the `page` key, and a streaming
`agents run` forwards it inside the `timeoutMs` options object while the
run completes normally. -/
theorem c9_nan_passthrough :
    jsToNumber "abc" = JSNum.nan ∧
    (∀ (v : String) (limit : Option JSNum) (srt odr acc : Option String),
      sourcesListAction ⟨some (jsToNumber v), limit, srt, odr, acc⟩
        = ClientCall.listSources [("page", JsValue.num (jsToNumber v)),
            ("limit", ofOptNum limit), ("sort", ofOptStr srt), ("order", ofOptStr odr),
            ("accountId", ofOptStr acc)]) ∧
    (∀ (v agentId stdin : String) (fs : String → Option String)
        (respond : ClientCall → Except CliError Json),
      agentsRunMain agentId ⟨some "null", none, true, some (jsToNumber v)⟩ stdin fs
          (Except.ok ()) true respond
        = ([RunEvent.clientConstructed,
            RunEvent.call (ClientCall.runStreamingAgentAndWait agentId Json.null
              (some [("timeoutMs", JsValue.num (jsToNumber v))]))],
           respond (ClientCall.runStreamingAgentAndWait agentId Json.null
              (some [("timeoutMs", JsValue.num (jsToNumber v))])))) := by
  refine ⟨by decide, fun v limit srt odr acc => rfl, fun v agentId stdin fs respond => rfl⟩

/-- C10: the options object handed to the client constructor always carries
an explicit `baseUrl` — the value of `SECLAI_API_URL` when that variable is
set non-empty, the production host when it is unset or empty — and carries
the `apiKey` key exactly when an API key was supplied. -/
theorem c10_createClient (apiKey env : Option String) :
    (∀ u, env = some u → u ≠ "" →
      List.lookup "baseUrl" (createClient apiKey env) = some (JsValue.str u)) ∧
    (env = none →
      List.lookup "baseUrl" (createClient apiKey env)
        = some (JsValue.str "https://api.seclai.com")) ∧
    (env = some "" →
      List.lookup "baseUrl" (createClient apiKey env)
        = some (JsValue.str "https://api.seclai.com")) ∧
    (apiKey = none → List.lookup "apiKey" (createClient apiKey env) = none) ∧
    (∀ k, apiKey = some k →
      List.lookup "apiKey" (createClient apiKey env) = some (JsValue.str k)) := by
  refine ⟨?_, ?_, ?_, ?_, ?_⟩
  · rintro u rfl hu
    have hlen : 0 < u.length := by
      rcases u with ⟨data⟩
      cases data with
      | nil => exact absurd rfl hu
      | cons c tl => simp [String.length]
    cases apiKey <;> simp [createClient, hlen, List.lookup]
  · rintro rfl
    cases apiKey <;> simp [createClient, List.lookup]
  · rintro rfl
    cases apiKey <;> simp [createClient, List.lookup]
  · rintro rfl
    cases env <;> simp [createClient, List.lookup]
  · rintro k rfl
    cases env <;> simp [createClient, List.lookup]

/-- C10, witness: a non-empty `SECLAI_API_URL` is taken as the base URL, an
empty one falls back to the production host, and without an API key the
constructor options carry no `apiKey` key. -/
theorem c10_witness :
    List.lookup "baseUrl" (createClient (some "k") (some "https://example.invalid"))
        = some (JsValue.str "https://example.invalid") ∧
    List.lookup "baseUrl" (createClient none (some ""))
        = some (JsValue.str "https://api.seclai.com") ∧
    List.lookup "apiKey" (createClient none none) = none :=
  ⟨(c10_createClient (some "k") (some "https://example.invalid")).1 "https://example.invalid"
      rfl (by decide),
   (c10_createClient none (some "")).2.2.1 rfl,
   (c10_createClient none none).2.2.2.1 rfl⟩
